import Mathlib

/-!
# Verification of the secp256k1 curve-specific core (`src/secp256k1.ts`)

This file gives a shallow embedding, in Lean 4, of the curve-specific code of
the repository: the fixed addition-chain square root `sqrtMod`, the GLV
scalar decomposition `splitScalar`, the BIP340 Schnorr signing and
verification pipeline (`schnorrGetExtPubKey`, `lift_x`, `schnorrSign`,
`schnorrVerify`) and the tagged-hash construction with its prefix cache.

Machine integers of the source (JS `bigint`) are embedded as `Nat`/`Int` with
explicit `%` where the source reduces; byte arrays are `List Nat`; fallible
code returns `Except`.  Operations supplied by files of the repository that
are not part of the analysed sources (the generic field/point arithmetic of
`abstract/modular.js`, `abstract/weierstrass.js`, `abstract/utils.js`) and
the SHA-256 primitive of the external `@noble/hashes` package are modelled
from the specification, as documented on each such definition.

The development also contains a Pratt-style primality certificate for the
field prime `p = 2^256 - 2^32 - 977`, needed to settle the square-root
claims (Euler's criterion for the exponent `(p+1)/4`).
-/

namespace Secp256k1

/-- The field prime, from the source: `secp256k1P`. -/
def secp256k1P : ℕ :=
  0xfffffffffffffffffffffffffffffffffffffffffffffffffffffffefffffc2f

/-- The curve order, from the source: `secp256k1N`. -/
def secp256k1N : ℕ :=
  0xfffffffffffffffffffffffffffffffebaaedce6af48a03bbfd25e8cd0364141

/-! ## Fast modular exponentiation (fuel-based, kernel-reducible)

Used only as proof infrastructure: it lets the kernel decide statements
`a ^ e % m = v` for 256-bit exponents without materialising `a ^ e`. -/

/-- Binary modular exponentiation; structural recursion on an explicit fuel
argument so that the kernel can evaluate it. -/
def powModFuel (m : ℕ) : ℕ → ℕ → ℕ → ℕ
  | 0, _, _ => 1 % m
  | fuel + 1, a, e =>
    if e = 0 then 1 % m
    else
      let h := powModFuel m fuel ((a * a) % m) (e / 2)
      if e % 2 = 1 then (h * a) % m else h

/-- `powMod a e m = a ^ e % m`, computable in `O(log e)` modular squarings. -/
def powMod (a e m : ℕ) : ℕ := powModFuel m (e + 1) (a % m) e

theorem powModFuel_eq (m : ℕ) :
    ∀ fuel e a, e < 2 ^ fuel → powModFuel m fuel a e = a ^ e % m := by
  intro fuel
  induction fuel with
  | zero =>
    intro e a he
    interval_cases e
    simp [powModFuel, Nat.mod_eq_of_lt]
  | succ f ih =>
    intro e a he
    rw [powModFuel]
    by_cases he0 : e = 0
    · simp [he0]
    · simp only [he0, if_false]
      have hlt : e / 2 < 2 ^ f := by
        have h2 : e < 2 ^ f * 2 := by
          rw [pow_succ] at he; exact he
        omega
      have hrec := ih (e / 2) ((a * a) % m) hlt
      have hbase : ((a * a) % m) ^ (e / 2) % m = (a * a) ^ (e / 2) % m :=
        (Nat.pow_mod (a * a) (e / 2) m).symm
      have hsq : (a * a) ^ (e / 2) = a ^ (2 * (e / 2)) := by
        rw [← pow_two a, ← pow_mul]
      by_cases hpar : e % 2 = 1
      · simp only [hpar, if_true]
        rw [hrec, hbase, Nat.mod_mul_mod, hsq, ← pow_succ]
        have : 2 * (e / 2) + 1 = e := by omega
        rw [this]
      · simp only [hpar, if_false]
        rw [hrec, hbase, hsq]
        have : 2 * (e / 2) = e := by omega
        rw [this]

theorem powMod_eq (a e m : ℕ) : powMod a e m = a ^ e % m := by
  rw [powMod, powModFuel_eq m _ _ _ (lt_of_lt_of_le (Nat.lt_two_pow e) (Nat.pow_le_pow_right (by norm_num) (Nat.le_succ e)))]
  rw [← Nat.pow_mod]

theorem zmod_pow_natCast (a e m : ℕ) :
    ((a : ZMod m)) ^ e = ((powMod a e m : ℕ) : ZMod m) := by
  rw [powMod_eq, ZMod.natCast_mod, Nat.cast_pow]

theorem zmod_pow_eq_one_of_powMod (a e m : ℕ) (h : powMod a e m = 1 % m) :
    ((a : ZMod m)) ^ e = 1 := by
  rw [zmod_pow_natCast, h, ZMod.natCast_mod, Nat.cast_one]

theorem zmod_pow_ne_one_of_powMod (a e m : ℕ) (hm : 1 < m)
    (h : powMod a e m ≠ 1) : ((a : ZMod m)) ^ e ≠ 1 := by
  rw [zmod_pow_natCast]
  intro hc
  apply h
  have h2 : ((powMod a e m : ℕ) : ZMod m) = ((1 : ℕ) : ZMod m) := by
    rw [hc, Nat.cast_one]
  have h3 := (ZMod.natCast_eq_natCast_iff' _ _ _).mp h2
  rw [powMod_eq] at h3 ⊢
  rw [Nat.mod_mod_of_dvd _ (dvd_refl m), Nat.mod_eq_of_lt hm] at h3
  exact h3

/-- Product of a list of prime powers, used to state a factorisation of
`N - 1` in a Lucas (Pratt-style) primality certificate. -/
def prodPows : List (ℕ × ℕ) → ℕ
  | [] => 1
  | (q, e) :: t => q ^ e * prodPows t

theorem prime_dvd_prodPows {l : List (ℕ × ℕ)} {q : ℕ} (hq : q.Prime)
    (hprimes : ∀ qe ∈ l, Nat.Prime qe.1)
    (h : q ∣ prodPows l) : ∃ qe ∈ l, q = qe.1 := by
  induction l with
  | nil =>
    rw [prodPows] at h
    exact absurd (Nat.eq_one_of_dvd_one h) (Nat.Prime.ne_one hq)
  | cons x t ih =>
    rcases (Nat.Prime.dvd_mul hq).mp h with h1 | h2
    · refine ⟨x, List.mem_cons_self x t, ?_⟩
      exact (Nat.prime_dvd_prime_iff_eq hq
        (hprimes x (List.mem_cons_self x t))).mp (hq.dvd_of_dvd_pow h1)
    · obtain ⟨qe, hmem, hqe⟩ :=
        ih (fun qe hm => hprimes qe (List.mem_cons_of_mem x hm)) h2
      exact ⟨qe, List.mem_cons_of_mem x hmem, hqe⟩

/-- A reusable Lucas-certificate checker: `N` is prime as soon as `N - 1`
factors as the given list of prime powers, the witness `a` has order `N - 1`
(checked with `powMod`), and its `(N-1)/q`-th powers differ from `1`. -/
theorem lucas_cert (N a : ℕ) (l : List (ℕ × ℕ)) (hN : 1 < N)
    (hfact : N - 1 = prodPows l)
    (hprimes : ∀ qe ∈ l, Nat.Prime qe.1)
    (ha : powMod a (N - 1) N = 1)
    (hd : ∀ qe ∈ l, powMod a ((N - 1) / qe.1) N ≠ 1) : Nat.Prime N := by
  apply lucas_primality N ((a : ℕ) : ZMod N)
  · exact zmod_pow_eq_one_of_powMod a (N - 1) N (by rw [ha, Nat.mod_eq_of_lt hN])
  · intro q hq hdvd
    rw [hfact] at hdvd
    obtain ⟨qe, hmem, rfl⟩ := prime_dvd_prodPows hq hprimes hdvd
    exact zmod_pow_ne_one_of_powMod _ _ _ hN (hd qe hmem)

/-! ## Primality of the field prime `p`

A chain of Lucas certificates (Pratt tree) culminating in the primality of
`p = 2^256 - 2^32 - 977`.  Witnesses and factorisations are fixed data; each
certificate is checked by `decide` through `powMod`. -/

theorem prime_2 : Nat.Prime 2 := by norm_num

theorem prime_3 : Nat.Prime 3 := by norm_num

theorem prime_5 : Nat.Prime 5 := by norm_num

theorem prime_7 : Nat.Prime 7 := by norm_num

theorem prime_11 : Nat.Prime 11 := by norm_num

theorem prime_13 : Nat.Prime 13 := by norm_num

theorem prime_17 : Nat.Prime 17 := by norm_num

theorem prime_19 : Nat.Prime 19 := by norm_num

theorem prime_29 : Nat.Prime 29 := by norm_num

theorem prime_31 : Nat.Prime 31 := by norm_num

theorem prime_41 : Nat.Prime 41 := by norm_num

theorem prime_53 : Nat.Prime 53 := by norm_num

theorem prime_67 : Nat.Prime 67 := by norm_num

theorem prime_83 : Nat.Prime 83 := by norm_num

theorem prime_97 : Nat.Prime 97 := by norm_num

theorem prime_101 : Nat.Prime 101 := by norm_num

theorem prime_103 : Nat.Prime 103 := by norm_num

theorem prime_131 : Nat.Prime 131 := by norm_num

theorem prime_239 : Nat.Prime 239 := by norm_num

theorem prime_271 : Nat.Prime 271 := by norm_num

theorem prime_419 : Nat.Prime 419 := by norm_num

theorem prime_443 : Nat.Prime 443 := by norm_num

theorem prime_887 : Nat.Prime 887 := by norm_num

theorem prime_971 : Nat.Prime 971 := by norm_num

theorem prime_1373 : Nat.Prime 1373 := by norm_num

theorem prime_1627 : Nat.Prime 1627 := by norm_num

theorem prime_2621 : Nat.Prime 2621 := by norm_num

theorem prime_2657 : Nat.Prime 2657 := by norm_num

theorem prime_4423 : Nat.Prime 4423 := by norm_num

theorem prime_5323 : Nat.Prime 5323 := by norm_num

theorem prime_7723 : Nat.Prime 7723 := by norm_num

theorem prime_13441 : Nat.Prime 13441 := by norm_num

theorem prime_20113 : Nat.Prime 20113 := by norm_num

theorem prime_24809 : Nat.Prime 24809 := by norm_num

theorem prime_41201 : Nat.Prime 41201 := by norm_num

theorem prime_96557 : Nat.Prime 96557 := by norm_num

set_option maxRecDepth 200000 in
theorem prime_1206781 : Nat.Prime 1206781 :=
  lucas_cert 1206781 10 [(2,2),(3,1),(5,1),(20113,1)]
    (by norm_num) (by decide)
    (by intro qe h; fin_cases h <;> first | exact prime_2 | exact prime_3 | exact prime_5 | exact prime_20113)
    (by decide) (by decide)

set_option maxRecDepth 200000 in
theorem prime_7240687 : Nat.Prime 7240687 :=
  lucas_cert 7240687 3 [(2,1),(3,1),(1206781,1)]
    (by norm_num) (by decide)
    (by intro qe h; fin_cases h <;> first | exact prime_2 | exact prime_3 | exact prime_1206781)
    (by decide) (by decide)

set_option maxRecDepth 200000 in
theorem prime_13331831 : Nat.Prime 13331831 :=
  lucas_cert 13331831 13 [(2,1),(5,1),(971,1),(1373,1)]
    (by norm_num) (by decide)
    (by intro qe h; fin_cases h <;> first | exact prime_2 | exact prime_5 | exact prime_971 | exact prime_1373)
    (by decide) (by decide)

set_option maxRecDepth 200000 in
theorem prime_107590001 : Nat.Prime 107590001 :=
  lucas_cert 107590001 3 [(2,4),(5,4),(7,1),(29,1),(53,1)]
    (by norm_num) (by decide)
    (by intro qe h; fin_cases h <;> first | exact prime_2 | exact prime_5 | exact prime_7 | exact prime_29 | exact prime_53)
    (by decide) (by decide)

set_option maxRecDepth 200000 in
theorem prime_c40 : Nat.Prime 173378833005251801 :=
  lucas_cert 173378833005251801 6 [(2,3),(5,2),(2621,1),(24809,1),(13331831,1)]
    (by norm_num) (by decide)
    (by intro qe h; fin_cases h <;> first | exact prime_2 | exact prime_5 | exact prime_2621 | exact prime_24809 | exact prime_13331831)
    (by decide) (by decide)

set_option maxRecDepth 200000 in
theorem prime_c41 : Nat.Prime 22149492674086928081353 :=
  lucas_cert 22149492674086928081353 5 [(2,3),(3,1),(5323,1),(173378833005251801,1)]
    (by norm_num) (by decide)
    (by intro qe h; fin_cases h <;> first | exact prime_2 | exact prime_3 | exact prime_5323 | exact prime_c40)
    (by decide) (by decide)

set_option maxRecDepth 200000 in
theorem prime_c42 : Nat.Prime 132896956044521568488119 :=
  lucas_cert 132896956044521568488119 6 [(2,1),(3,1),(22149492674086928081353,1)]
    (by norm_num) (by decide)
    (by intro qe h; fin_cases h <;> first | exact prime_2 | exact prime_3 | exact prime_c41)
    (by decide) (by decide)

set_option maxRecDepth 200000 in
theorem prime_c43 : Nat.Prime 255515944373312847190720520512484175977 :=
  lucas_cert 255515944373312847190720520512484175977 3 [(2,3),(7,2),(11,1),(1627,1),(2657,1),(4423,1),(41201,1),(96557,1),(7240687,1),(107590001,1)]
    (by norm_num) (by decide)
    (by intro qe h; fin_cases h <;> first | exact prime_2 | exact prime_7 | exact prime_11 | exact prime_1627 | exact prime_2657 | exact prime_4423 | exact prime_41201 | exact prime_96557 | exact prime_7240687 | exact prime_107590001)
    (by decide) (by decide)

set_option maxRecDepth 200000 in
theorem prime_c44 : Nat.Prime 205115282021455665897114700593932402728804164701536103180137503955397371 :=
  lucas_cert 205115282021455665897114700593932402728804164701536103180137503955397371 10 [(2,1),(3,1),(5,1),(29,2),(31,1),(7723,1),(132896956044521568488119,1),(255515944373312847190720520512484175977,1)]
    (by norm_num) (by decide)
    (by intro qe h; fin_cases h <;> first | exact prime_2 | exact prime_3 | exact prime_5 | exact prime_29 | exact prime_31 | exact prime_7723 | exact prime_c42 | exact prime_c43)
    (by decide) (by decide)

set_option maxRecDepth 200000 in
theorem prime_c45 : Nat.Prime 115792089237316195423570985008687907853269984665640564039457584007908834671663 :=
  lucas_cert 115792089237316195423570985008687907853269984665640564039457584007908834671663 3 [(2,1),(3,1),(7,1),(13441,1),(205115282021455665897114700593932402728804164701536103180137503955397371,1)]
    (by norm_num) (by decide)
    (by intro qe h; fin_cases h <;> first | exact prime_2 | exact prime_3 | exact prime_7 | exact prime_13441 | exact prime_c44)
    (by decide) (by decide)

/-- Primality of the secp256k1 field prime, via the Lucas certificates above. -/
theorem secp256k1P_prime : Nat.Prime secp256k1P := by
  show Nat.Prime 115792089237316195423570985008687907853269984665640564039457584007908834671663
  exact prime_c45


/-! ## The addition-chain square root (`sqrtMod` of the source) -/

/-- Error outcomes of the embedded fallible operations.  The source throws
`Error` objects with messages; the constructors below name, in order, the
errors `'Cannot find square root'`, `'bad x: need 0 < x < p'`, the
`assertValidity` failure, the `ensureBytes` length mismatch, the
private-scalar range failure of `Point.fromPrivateKey`, a point-at-infinity
result of the modelled scalar multiplication, `'sign failed: k is zero'` and
`'sign: Invalid signature produced'`. -/
inductive Err where
  | noSquareRoot : Err
  | badPublicKeyX : Err
  | pointNotOnCurve : Err
  | badLength : Err
  | inputRange : Err
  | pointAtInfinity : Err
  | nonceZero : Err
  | selfCheckFailed : Err
  | endoSplitFailure : Err
deriving DecidableEq, Repr

/-- Modelled from the spec: `pow2(x, power, P)` of the external modular
module (`abstract/modular.js`, not among the analysed sources) squares `x`
modulo `P` `power` times — spec §4.1: partial powers are "built by repeated
squaring". -/
def pow2 : ℕ → ℕ → ℕ → ℕ
  | x, 0, _ => x
  | x, k + 1, P => pow2 ((x * x) % P) k P

/-- `b2 = (y * y * y) % P` of `sqrtMod` (the partial power `y^3`). -/
def sqrtB2 (y : ℕ) : ℕ := (y * y * y) % secp256k1P

/-- `b3 = (b2 * b2 * y) % P` (the partial power `y^7`). -/
def sqrtB3 (y : ℕ) : ℕ := (sqrtB2 y * sqrtB2 y * y) % secp256k1P

/-- `b6 = (pow2(b3, 3, P) * b3) % P`. -/
def sqrtB6 (y : ℕ) : ℕ := (pow2 (sqrtB3 y) 3 secp256k1P * sqrtB3 y) % secp256k1P

/-- `b9 = (pow2(b6, 3, P) * b3) % P`. -/
def sqrtB9 (y : ℕ) : ℕ := (pow2 (sqrtB6 y) 3 secp256k1P * sqrtB3 y) % secp256k1P

/-- `b11 = (pow2(b9, 2, P) * b2) % P`. -/
def sqrtB11 (y : ℕ) : ℕ := (pow2 (sqrtB9 y) 2 secp256k1P * sqrtB2 y) % secp256k1P

/-- `b22 = (pow2(b11, 11, P) * b11) % P`. -/
def sqrtB22 (y : ℕ) : ℕ := (pow2 (sqrtB11 y) 11 secp256k1P * sqrtB11 y) % secp256k1P

/-- `b44 = (pow2(b22, 22, P) * b22) % P`. -/
def sqrtB44 (y : ℕ) : ℕ := (pow2 (sqrtB22 y) 22 secp256k1P * sqrtB22 y) % secp256k1P

/-- `b88 = (pow2(b44, 44, P) * b44) % P`. -/
def sqrtB88 (y : ℕ) : ℕ := (pow2 (sqrtB44 y) 44 secp256k1P * sqrtB44 y) % secp256k1P

/-- `b176 = (pow2(b88, 88, P) * b88) % P`. -/
def sqrtB176 (y : ℕ) : ℕ := (pow2 (sqrtB88 y) 88 secp256k1P * sqrtB88 y) % secp256k1P

/-- `b220 = (pow2(b176, 44, P) * b44) % P`. -/
def sqrtB220 (y : ℕ) : ℕ := (pow2 (sqrtB176 y) 44 secp256k1P * sqrtB44 y) % secp256k1P

/-- `b223 = (pow2(b220, 3, P) * b3) % P`. -/
def sqrtB223 (y : ℕ) : ℕ := (pow2 (sqrtB220 y) 3 secp256k1P * sqrtB3 y) % secp256k1P

/-- `t1 = (pow2(b223, 23, P) * b22) % P`. -/
def sqrtT1 (y : ℕ) : ℕ := (pow2 (sqrtB223 y) 23 secp256k1P * sqrtB22 y) % secp256k1P

/-- `t2 = (pow2(t1, 6, P) * b2) % P`. -/
def sqrtT2 (y : ℕ) : ℕ := (pow2 (sqrtT1 y) 6 secp256k1P * sqrtB2 y) % secp256k1P

/-- `root = pow2(t2, 2, P)`: the candidate square root `y^((p+1)/4) mod p`. -/
def sqrtRoot (y : ℕ) : ℕ := pow2 (sqrtT2 y) 2 secp256k1P

/-- `sqrtMod` from the source: computes the addition-chain candidate and
fails with `'Cannot find square root'` unless its square gives back `y`
(`if (!Fp.eql(Fp.sqr(root), y)) throw ...`). -/
def sqrtMod (y : ℕ) : Except Err ℕ :=
  let root := sqrtRoot y
  if root * root % secp256k1P = y then .ok root else .error .noSquareRoot

theorem pow2_mod (P : ℕ) : ∀ k x, pow2 x k P % P = x ^ (2 ^ k) % P := by
  intro k
  induction k with
  | zero => intro x; rw [pow2, pow_zero, pow_one]
  | succ n ih =>
    intro x
    rw [pow2, ih ((x * x) % P), ← Nat.pow_mod, ← pow_two x, ← pow_mul,
      ← pow_succ']

theorem pow2_lt (P x : ℕ) (hP : 0 < P) : ∀ k, 0 < k → pow2 x k P < P := by
  intro k
  induction k generalizing x with
  | zero => omega
  | succ n ih =>
    intro _
    rcases Nat.eq_zero_or_pos n with h0 | hpos
    · subst h0
      rw [pow2, pow2]
      exact Nat.mod_lt _ hP
    · rw [pow2]
      exact ih _ hpos

theorem mulStep {P y b c e f : ℕ} (g : ℕ) (hg : e + f = g)
    (hb : b % P = y ^ e % P) (hc : c % P = y ^ f % P) :
    (b * c) % P = y ^ g % P := by
  rw [Nat.mul_mod, hb, hc, ← Nat.mul_mod, ← pow_add, hg]

theorem pow2Step {P y b e : ℕ} (m : ℕ) (g : ℕ) (hg : e * 2 ^ m = g)
    (hb : b % P = y ^ e % P) : pow2 b m P % P = y ^ g % P := by
  rw [pow2_mod, Nat.pow_mod, hb, ← Nat.pow_mod, ← pow_mul, hg]

theorem modred {a P : ℕ} : a % P % P = a % P := Nat.mod_mod_of_dvd _ dvd_rfl

theorem sqrtB2_mod (y : ℕ) : sqrtB2 y % secp256k1P = y ^ 3 % secp256k1P := by
  rw [sqrtB2, modred]
  congr 1
  ring

theorem sqrtB3_mod (y : ℕ) : sqrtB3 y % secp256k1P = y ^ 7 % secp256k1P := by
  rw [sqrtB3, modred]
  have hy1 : y % secp256k1P = y ^ 1 % secp256k1P := by rw [pow_one]
  exact mulStep 7 (by norm_num)
    (mulStep 6 (by norm_num) (sqrtB2_mod y) (sqrtB2_mod y)) hy1

theorem sqrtB6_mod (y : ℕ) : sqrtB6 y % secp256k1P = y ^ 63 % secp256k1P := by
  rw [sqrtB6, modred]
  exact mulStep 63 (by norm_num)
    (pow2Step 3 56 (by norm_num) (sqrtB3_mod y)) (sqrtB3_mod y)

theorem sqrtB9_mod (y : ℕ) : sqrtB9 y % secp256k1P = y ^ 511 % secp256k1P := by
  rw [sqrtB9, modred]
  exact mulStep 511 (by norm_num)
    (pow2Step 3 504 (by norm_num) (sqrtB6_mod y)) (sqrtB3_mod y)

theorem sqrtB11_mod (y : ℕ) :
    sqrtB11 y % secp256k1P = y ^ 2047 % secp256k1P := by
  rw [sqrtB11, modred]
  exact mulStep 2047 (by norm_num)
    (pow2Step 2 2044 (by norm_num) (sqrtB9_mod y)) (sqrtB2_mod y)

theorem sqrtB22_mod (y : ℕ) :
    sqrtB22 y % secp256k1P = y ^ (2 ^ 22 - 1) % secp256k1P := by
  rw [sqrtB22, modred]
  exact mulStep (2 ^ 22 - 1) (by norm_num)
    (pow2Step 11 (2047 * 2 ^ 11) rfl (sqrtB11_mod y)) (sqrtB11_mod y)

theorem sqrtB44_mod (y : ℕ) :
    sqrtB44 y % secp256k1P = y ^ (2 ^ 44 - 1) % secp256k1P := by
  rw [sqrtB44, modred]
  exact mulStep (2 ^ 44 - 1) (by norm_num)
    (pow2Step 22 ((2 ^ 22 - 1) * 2 ^ 22) rfl (sqrtB22_mod y)) (sqrtB22_mod y)

theorem sqrtB88_mod (y : ℕ) :
    sqrtB88 y % secp256k1P = y ^ (2 ^ 88 - 1) % secp256k1P := by
  rw [sqrtB88, modred]
  exact mulStep (2 ^ 88 - 1) (by norm_num)
    (pow2Step 44 ((2 ^ 44 - 1) * 2 ^ 44) rfl (sqrtB44_mod y)) (sqrtB44_mod y)

theorem sqrtB176_mod (y : ℕ) :
    sqrtB176 y % secp256k1P = y ^ (2 ^ 176 - 1) % secp256k1P := by
  rw [sqrtB176, modred]
  exact mulStep (2 ^ 176 - 1) (by norm_num)
    (pow2Step 88 ((2 ^ 88 - 1) * 2 ^ 88) rfl (sqrtB88_mod y)) (sqrtB88_mod y)

theorem sqrtB220_mod (y : ℕ) :
    sqrtB220 y % secp256k1P = y ^ (2 ^ 220 - 1) % secp256k1P := by
  rw [sqrtB220, modred]
  exact mulStep (2 ^ 220 - 1) (by norm_num)
    (pow2Step 44 ((2 ^ 176 - 1) * 2 ^ 44) rfl (sqrtB176_mod y)) (sqrtB44_mod y)

theorem sqrtB223_mod (y : ℕ) :
    sqrtB223 y % secp256k1P = y ^ (2 ^ 223 - 1) % secp256k1P := by
  rw [sqrtB223, modred]
  exact mulStep (2 ^ 223 - 1) (by norm_num)
    (pow2Step 3 ((2 ^ 220 - 1) * 2 ^ 3) rfl (sqrtB220_mod y)) (sqrtB3_mod y)

theorem sqrtT1_mod (y : ℕ) :
    sqrtT1 y % secp256k1P
      = y ^ ((2 ^ 223 - 1) * 2 ^ 23 + (2 ^ 22 - 1)) % secp256k1P := by
  rw [sqrtT1, modred]
  exact mulStep _ rfl
    (pow2Step 23 ((2 ^ 223 - 1) * 2 ^ 23) rfl (sqrtB223_mod y)) (sqrtB22_mod y)

theorem sqrtT2_mod (y : ℕ) :
    sqrtT2 y % secp256k1P
      = y ^ (((2 ^ 223 - 1) * 2 ^ 23 + (2 ^ 22 - 1)) * 2 ^ 6 + 3)
          % secp256k1P := by
  rw [sqrtT2, modred]
  exact mulStep _ rfl
    (pow2Step 6 (((2 ^ 223 - 1) * 2 ^ 23 + (2 ^ 22 - 1)) * 2 ^ 6) rfl
      (sqrtT1_mod y)) (sqrtB2_mod y)

/-- The addition chain of `sqrtMod` computes exactly `y^((p+1)/4) mod p`. -/
theorem sqrtRoot_mod (y : ℕ) :
    sqrtRoot y % secp256k1P
      = y ^ ((secp256k1P + 1) / 4) % secp256k1P := by
  rw [sqrtRoot]
  refine pow2Step 2 _ ?_ (sqrtT2_mod y)
  show Nat.mul _ _ = _
  norm_num [secp256k1P]

theorem sqrtRoot_lt (y : ℕ) : sqrtRoot y < secp256k1P :=
  pow2_lt _ _ (by norm_num [secp256k1P]) 2 (by norm_num)

/-- Euler's criterion specialised to `p ≡ 3 (mod 4)`: for a quadratic
residue `y < p`, the `(p+1)/4`-th power squares back to `y`. -/
theorem euler_sqrt {y z : ℕ} (hy : y < secp256k1P)
    (hz : z * z % secp256k1P = y) :
    (y ^ ((secp256k1P + 1) / 4) % secp256k1P)
      * (y ^ ((secp256k1P + 1) / 4) % secp256k1P) % secp256k1P = y := by
  haveI : Fact (Nat.Prime secp256k1P) := ⟨secp256k1P_prime⟩
  set P := secp256k1P with hP
  set q := (P + 1) / 4 with hq
  have key : y ^ (2 * q) % P = y % P := by
    have hzy : ((z : ZMod P)) * ((z : ZMod P)) = ((y : ZMod P)) := by
      have := congrArg (fun t : ℕ => ((t : ZMod P))) hz
      simpa [Nat.cast_mul] using this
    have main : ((y : ZMod P)) ^ (2 * q) = ((y : ZMod P)) := by
      rw [← hzy]
      have h4q : 2 * (2 * q) = P + 1 := by
        rw [hq]
        norm_num [hP, secp256k1P]
      have hsq : ((z : ZMod P) * (z : ZMod P)) ^ (2 * q)
          = (z : ZMod P) ^ (P + 1) := by
        rw [← pow_two, ← pow_mul, h4q]
      rw [hsq]
      rcases eq_or_ne ((z : ZMod P)) 0 with h0 | h0
      · rw [h0, zero_pow (by norm_num [hP, secp256k1P]), zero_mul]
      · have hfl : ((z : ZMod P)) ^ (P - 1) = 1 :=
          ZMod.pow_card_sub_one_eq_one h0
        have hPe : P + 1 = 2 + (P - 1) := by
          norm_num [hP, secp256k1P]
        rw [hPe, pow_add, hfl, mul_one, pow_two]
    have := (ZMod.natCast_eq_natCast_iff' (y ^ (2 * q)) y P).mp (by
      rw [Nat.cast_pow]; exact main)
    exact this
  calc (y ^ q % P) * (y ^ q % P) % P
      = (y ^ q * y ^ q) % P := by rw [← Nat.mul_mod]
    _ = y ^ (2 * q) % P := by rw [← pow_add, two_mul]
    _ = y % P := key
    _ = y := Nat.mod_eq_of_lt hy

theorem sqrtMod_ok_of_qr {y z : ℕ} (hy : y < secp256k1P)
    (hz : z * z % secp256k1P = y) :
    sqrtMod y = .ok (sqrtRoot y)
      ∧ sqrtRoot y * sqrtRoot y % secp256k1P = y := by
  have hroot : sqrtRoot y = y ^ ((secp256k1P + 1) / 4) % secp256k1P := by
    rw [← sqrtRoot_mod, Nat.mod_eq_of_lt (sqrtRoot_lt y)]
  have hsq : sqrtRoot y * sqrtRoot y % secp256k1P = y := by
    rw [hroot]
    exact euler_sqrt hy hz
  exact ⟨by rw [sqrtMod]; simp [hsq], hsq⟩

theorem sqrtMod_error_of_nonqr {y : ℕ}
    (hn : ¬∃ z, z * z % secp256k1P = y) :
    sqrtMod y = .error .noSquareRoot := by
  rw [sqrtMod]
  have : ¬(sqrtRoot y * sqrtRoot y % secp256k1P = y) := fun hc =>
    hn ⟨sqrtRoot y, hc⟩
  simp [this]

theorem sqrtMod_ok_sq {y r : ℕ} (hr : sqrtMod y = .ok r) :
    r * r % secp256k1P = y ∧ r = sqrtRoot y := by
  rw [sqrtMod] at hr
  by_cases hc : sqrtRoot y * sqrtRoot y % secp256k1P = y
  · simp only [hc, if_true, Except.ok.injEq] at hr
    subst hr
    exact ⟨hc, rfl⟩
  · simp [hc] at hr

/-- C4. For `y ∈ [0, p)`: a quadratic residue yields a verified root, a
non-residue yields the `'Cannot find square root'` error, and any returned
root squares to `y`. -/
theorem sqrtMod_correct (y : ℕ) (hy : y < secp256k1P) :
    ((∃ z, z * z % secp256k1P = y) →
      ∃ r, sqrtMod y = .ok r ∧ r * r % secp256k1P = y)
    ∧ ((¬∃ z, z * z % secp256k1P = y) → sqrtMod y = .error .noSquareRoot)
    ∧ (∀ r, sqrtMod y = .ok r → r * r % secp256k1P = y) := by
  refine ⟨?_, ?_, ?_⟩
  · rintro ⟨z, hz⟩
    obtain ⟨h1, h2⟩ := sqrtMod_ok_of_qr hy hz
    exact ⟨sqrtRoot y, h1, h2⟩
  · exact sqrtMod_error_of_nonqr
  · intro r hr
    exact (sqrtMod_ok_sq hr).1

/-- Witness for C4 at the residue `y = 4`. -/
theorem sqrtMod_correct_witness :
    (∃ r, sqrtMod 4 = .ok r ∧ r * r % secp256k1P = 4) :=
  (sqrtMod_correct 4 (by norm_num [secp256k1P])).1 ⟨2, by norm_num [secp256k1P]⟩

/-! ## `lift_x`: x-only point decompression (source lines 146-154) -/

/-- Modelled from the spec: the external group library's affine point type
(`Point`: a pair (x, y) on `y² = x³ + 7 mod p`; the point at infinity is
represented separately by `Option`). -/
structure AffPoint where
  x : ℕ
  y : ℕ
deriving DecidableEq, Repr

/-- Modelled from the spec: `mod(a, b)` of the external modular module
returns the canonical representative in `[0, b)` (spec §3: "canonical form
in [0, p)"); embedded as the Euclidean remainder. -/
def modInt (a : ℤ) (b : ℕ) : ℕ := (a % (b : ℤ)).toNat

/-- `fe(x)`: `0 < x < p` (source line 112). -/
def fe (x : ℕ) : Bool := decide (0 < x) && decide (x < secp256k1P)

/-- `ge(x)`: `0 < x < n` (source line 113). -/
def ge (x : ℕ) : Bool := decide (0 < x) && decide (x < secp256k1N)

/-- Modelled from the spec: `assertValidity` of the external library
validates the curve equation `y² = x³ + 7 (mod p)` ("validate on-curve"). -/
def onCurve (Q : AffPoint) : Bool :=
  decide (Q.y * Q.y % secp256k1P = (Q.x * Q.x * Q.x + 7) % secp256k1P)

/-- `lift_x` from the source: range-check `x`, take the square root of
`x³ + 7`, choose the even-`y` branch, and validate the resulting point. -/
def lift_x (x : ℕ) : Except Err AffPoint :=
  if ¬ fe x then .error .badPublicKeyX
  else
    let c := (x * x * x + 7) % secp256k1P
    match sqrtMod c with
    | .error e => .error e
    | .ok y0 =>
      let y := if y0 % 2 ≠ 0 then modInt (-(y0 : ℤ)) secp256k1P else y0
      let Q : AffPoint := ⟨x, y⟩
      if ¬ onCurve Q then .error .pointNotOnCurve else .ok Q

theorem modInt_neg_eq (a : ℕ) (h0 : 0 < a) (h : a ≤ secp256k1P) :
    modInt (-(a : ℤ)) secp256k1P = secp256k1P - a := by
  rw [modInt]
  have hP : (0 : ℤ) < (secp256k1P : ℤ) := by
    norm_num [secp256k1P]
  have h1 : (-(a : ℤ)) % (secp256k1P : ℤ)
      = ((secp256k1P : ℤ) - a) % (secp256k1P : ℤ) := by
    conv_lhs => rw [show (-(a : ℤ)) = ((secp256k1P : ℤ) - a)
      + (secp256k1P : ℤ) * (-1) by ring]
    rw [Int.add_mul_emod_self_left]
  rw [h1, Int.emod_eq_of_lt (by omega) (by omega)]
  omega

theorem neg_sq_mod (a : ℕ) (h : a ≤ secp256k1P) :
    (secp256k1P - a) * (secp256k1P - a) % secp256k1P
      = a * a % secp256k1P := by
  have hz : ((secp256k1P - a : ℕ) : ZMod secp256k1P) = -(a : ZMod secp256k1P) := by
    rw [Nat.cast_sub h, ZMod.natCast_self, zero_sub]
  have : (((secp256k1P - a) * (secp256k1P - a) : ℕ) : ZMod secp256k1P)
      = ((a * a : ℕ) : ZMod secp256k1P) := by
    push_cast
    rw [Nat.cast_sub h, ZMod.natCast_self, zero_sub]
    ring
  exact (ZMod.natCast_eq_natCast_iff' _ _ _).mp this

/-- C5. `lift_x` fails outside `(0, p)` and on non-residues; otherwise it
returns the even-`y` point on the curve with the given `x`. -/
theorem lift_x_correct (x : ℕ) :
    ((¬(0 < x ∧ x < secp256k1P)) → lift_x x = .error .badPublicKeyX)
    ∧ (0 < x → x < secp256k1P →
        (¬∃ z, z * z % secp256k1P = (x * x * x + 7) % secp256k1P) →
        lift_x x = .error .noSquareRoot)
    ∧ (0 < x → x < secp256k1P →
        (∃ z, z * z % secp256k1P = (x * x * x + 7) % secp256k1P) →
        ∃ Q : AffPoint, lift_x x = .ok Q ∧ Q.x = x ∧ Q.y % 2 = 0
          ∧ Q.y * Q.y % secp256k1P = (x * x * x + 7) % secp256k1P) := by
  have hp2 : secp256k1P % 2 = 1 := by norm_num [secp256k1P]
  have hppos : 0 < secp256k1P := by norm_num [secp256k1P]
  refine ⟨?_, ?_, ?_⟩
  · intro hx
    have hfe : fe x = false := by
      rw [fe]
      rcases Decidable.not_and_iff_or_not.mp hx with h | h <;> simp [h]
    rw [lift_x]
    simp [hfe]
  · intro hx1 hx2 hn
    have hfe : fe x = true := by rw [fe]; simp [hx1, hx2]
    rw [lift_x]
    dsimp only
    rw [sqrtMod_error_of_nonqr hn]
    simp [hfe]
  · intro hx1 hx2 hqr
    obtain ⟨z, hz⟩ := hqr
    have hclt : (x * x * x + 7) % secp256k1P < secp256k1P :=
      Nat.mod_lt _ hppos
    obtain ⟨hok, hsq⟩ := sqrtMod_ok_of_qr hclt hz
    have hfe : fe x = true := by rw [fe]; simp [hx1, hx2]
    have hrlt : sqrtRoot ((x * x * x + 7) % secp256k1P) < secp256k1P :=
      sqrtRoot_lt _
    set y0 := sqrtRoot ((x * x * x + 7) % secp256k1P) with hy0
    by_cases hpar : y0 % 2 = 0
    · refine ⟨⟨x, y0⟩, ?_, rfl, hpar, hsq⟩
      have honc : onCurve ⟨x, y0⟩ = true := by
        rw [onCurve]
        simpa using hsq
      rw [lift_x]
      dsimp only
      rw [hok]
      simp [hfe, hpar, honc]
    · have hyodd : y0 % 2 = 1 := by omega
      have hy0pos : 0 < y0 := by omega
      have hmod : modInt (-(y0 : ℤ)) secp256k1P = secp256k1P - y0 :=
        modInt_neg_eq y0 hy0pos (le_of_lt hrlt)
      have heven : (secp256k1P - y0) % 2 = 0 := by omega
      have hsq2 : (secp256k1P - y0) * (secp256k1P - y0) % secp256k1P
          = (x * x * x + 7) % secp256k1P := by
        rw [neg_sq_mod y0 (le_of_lt hrlt)]
        exact hsq
      refine ⟨⟨x, secp256k1P - y0⟩, ?_, rfl, heven, hsq2⟩
      have honc : onCurve ⟨x, secp256k1P - y0⟩ = true := by
        rw [onCurve]
        simpa using hsq2
      rw [lift_x]
      dsimp only
      rw [hok]
      simp [hfe, hpar, hmod, honc]

/-- `Gx` from the source curve configuration (line 74). -/
def Gx : ℕ :=
  55066263022277343669578718895168534326250603453777594175500187360389116729240

/-- `Gy` from the source curve configuration (line 75). -/
def Gy : ℕ :=
  32670510020758816978083085130507043184471273380659243275938904335757337482424

/-- Witness for C5: the base-point `x` lifts to its even-`y` point, and
`x = 0` is rejected. -/
theorem lift_x_correct_witness :
    (∃ Q : AffPoint, lift_x Gx = .ok Q ∧ Q.x = Gx ∧ Q.y % 2 = 0
      ∧ Q.y * Q.y % secp256k1P = (Gx * Gx * Gx + 7) % secp256k1P)
    ∧ lift_x 0 = .error .badPublicKeyX :=
  ⟨(lift_x_correct Gx).2.2 (by norm_num [Gx]) (by norm_num [Gx, secp256k1P])
      ⟨Gy, by decide⟩,
    (lift_x_correct 0).1 (by simp)⟩

/-! ## The GLV scalar decomposition (`splitScalar`, source lines 82-102) -/

/-- `divNearest = (a + b/2) / b` (source line 29).  Both call sites of the
source pass nonnegative operands, where the JS truncating division agrees
with `Nat` floor division. -/
def divNearest (a b : ℕ) : ℕ := (a + b / 2) / b

/-- `a1` of the `endo` configuration (source line 84). -/
def endoA1 : ℤ := 0x3086d221a7d46bcde86c90e49284eb15

/-- `b1 = -1n * 0xe4437ed6010e88286f547fa90abfe4c3n` (source line 85). -/
def endoB1 : ℤ := -1 * 0xe4437ed6010e88286f547fa90abfe4c3

/-- `a2` of the `endo` configuration (source line 86). -/
def endoA2 : ℤ := 0x114ca50f7a8e2f3f657c1108d9d44cfd8

/-- `b2 = a1` (source line 87). -/
def endoB2 : ℤ := endoA1

/-- `POW_2_128` (source line 88). -/
def POW_2_128 : ℕ := 0x100000000000000000000000000000000

/-- `splitScalar` from the source: Babai rounding against the lattice basis
`(a1, b1), (a2, b2)`, followed by sign adjustment of `k1, k2` and the
defensive magnitude check. -/
def splitScalar (k : ℕ) : Except Err (ℕ × Bool × ℕ × Bool) :=
  let n := secp256k1N
  let c1 : ℕ := divNearest (endoB2.toNat * k) n
  let c2 : ℕ := divNearest ((-endoB1).toNat * k) n
  let k1 : ℕ := modInt ((k : ℤ) - c1 * endoA1 - c2 * endoA2) n
  let k2 : ℕ := modInt (-(c1 : ℤ) * endoB1 - c2 * endoB2) n
  let k1neg : Bool := decide (k1 > POW_2_128)
  let k2neg : Bool := decide (k2 > POW_2_128)
  let k1a : ℕ := if k1neg then n - k1 else k1
  let k2a : ℕ := if k2neg then n - k2 else k2
  if k1a > POW_2_128 ∨ k2a > POW_2_128 then .error .endoSplitFailure
  else .ok (k1a, k1neg, k2a, k2neg)

/-- Modelled from the spec: the endomorphism eigenvalue λ (spec §4.2:
"φ(Q) = λ·Q for a fixed λ (mod n)").  λ does not appear literally in the
source (only β does); it is characterised as the root of the lattice
relations `a1 + b1·λ ≡ 0 (mod n)`, `a2 + b2·λ ≡ 0 (mod n)` proved in
`lambdaScalar_lattice`. -/
def lambdaScalar : ℕ :=
  0x5363ad4cc05c30e0a5261c028812645a122e22ea20816678df02967c1b23bd72

/-- λ satisfies the lattice relations of the GLV basis and is a nontrivial
cube root of unity modulo `n`. -/
theorem lambdaScalar_lattice :
    (endoA1 + endoB1 * lambdaScalar) % (secp256k1N : ℤ) = 0
    ∧ (endoA2 + endoB2 * lambdaScalar) % (secp256k1N : ℤ) = 0
    ∧ ((lambdaScalar : ℤ) * lambdaScalar * lambdaScalar) % (secp256k1N : ℤ) = 1
    ∧ lambdaScalar ≠ 1 := by
  refine ⟨by decide, by decide, by decide, by decide⟩

theorem modInt_eq_of_nonneg {v : ℤ} {n : ℕ} (h0 : 0 ≤ v) (h1 : v < (n : ℤ)) :
    ((modInt v n : ℕ) : ℤ) = v := by
  rw [modInt, Int.emod_eq_of_lt h0 h1, Int.toNat_of_nonneg h0]

theorem modInt_eq_of_neg {v : ℤ} {n : ℕ} (h0 : v < 0) (h1 : -(n : ℤ) < v) :
    ((modInt v n : ℕ) : ℤ) = v + n := by
  rw [modInt]
  have h2 : v % (n : ℤ) = (v + n) % (n : ℤ) := by
    conv_lhs => rw [show v = (v + (n : ℤ)) + (n : ℤ) * (-1) by ring]
    rw [Int.add_mul_emod_self_left]
  rw [h2, Int.emod_eq_of_lt (by omega) (by omega), Int.toNat_of_nonneg (by omega)]

theorem modInt_lt (v : ℤ) (n : ℕ) (hn : 0 < n) : modInt v n < n := by
  rw [modInt]
  have h1 : v % (n : ℤ) < (n : ℤ) :=
    Int.emod_lt_of_pos v (by exact_mod_cast hn)
  omega

/-- The rounding error of `divNearest`: `x - round(x/n)·n = r - n/2` for the
remainder `r = (x + n/2) mod n`. -/
theorem divNearest_decomp (x n : ℕ) (hn : 0 < n) :
    ∃ r : ℕ, r < n
      ∧ (x : ℤ) - (divNearest x n : ℤ) * n = (r : ℤ) - ((n / 2 : ℕ) : ℤ) := by
  rw [divNearest]
  have hdm : n * ((x + n / 2) / n) + (x + n / 2) % n = x + n / 2 :=
    Nat.div_add_mod _ _
  refine ⟨(x + n / 2) % n, Nat.mod_lt _ hn, ?_⟩
  have hcast : ((n * ((x + n / 2) / n) + (x + n / 2) % n : ℕ) : ℤ)
      = ((x + n / 2 : ℕ) : ℤ) := by rw [hdm]
  rw [Nat.cast_add, Nat.cast_mul, Nat.cast_add] at hcast
  linear_combination -hcast

/-- Babai-rounding error analysis: with the determinant identity
`a1·b2 - a2·b1 = n` the two pre-reduction coordinates are bounded by
`(a1+a2)·h/n` resp. `(|b1|+b2)·h/n`, both below `2^128`. -/
theorem glv_bound (N h A1 A2 B1N L k c1 c2 r1 r2 : ℤ)
    (hN : 0 < N)
    (hdet : A1 * A1 + A2 * B1N = N)
    (hA1 : 0 < A1) (hA2 : 0 < A2) (hB1 : 0 < B1N)
    (hbound1 : (A1 + A2) * h < N * L)
    (hbound2 : (B1N + A1) * h < N * L)
    (hr1h : r1 ≤ 2 * h) (hr2h : r2 ≤ 2 * h)
    (he1 : A1 * k - c1 * N = r1 - h)
    (he2 : B1N * k - c2 * N = r2 - h)
    (hr1 : 0 ≤ r1) (hr2 : 0 ≤ r2) :
    (-L < k - c1 * A1 - c2 * A2 ∧ k - c1 * A1 - c2 * A2 < L)
    ∧ (-L < c1 * B1N - c2 * A1 ∧ c1 * B1N - c2 * A1 < L) := by
  have hv1 : N * (k - c1 * A1 - c2 * A2) = A1 * (r1 - h) + A2 * (r2 - h) := by
    linear_combination A1 * he1 + A2 * he2 - k * hdet
  have hv2 : N * (c1 * B1N - c2 * A1) = (-B1N) * (r1 - h) + A1 * (r2 - h) := by
    linear_combination (-B1N) * he1 + A1 * he2
  constructor
  · constructor
    · nlinarith [hv1, hbound1]
    · nlinarith [hv1, hbound1]
  · constructor
    · nlinarith [hv2, hbound2]
    · nlinarith [hv2, hbound2]

/-- The sign-adjustment step of `splitScalar`: reducing a value of magnitude
below `2^128` modulo `n` and flipping it back when it exceeds `2^128`
returns its magnitude and sign. -/
theorem signAdjust (v : ℤ) (hlo : -(POW_2_128 : ℤ) < v)
    (hhi : v < (POW_2_128 : ℤ)) :
    ∃ (Ka : ℕ) (neg : Bool),
      decide (modInt v secp256k1N > POW_2_128) = neg
      ∧ (if neg then secp256k1N - modInt v secp256k1N
         else modInt v secp256k1N) = Ka
      ∧ Ka < POW_2_128
      ∧ (if neg then -(Ka : ℤ) else (Ka : ℤ)) = v := by
  have hNL : (POW_2_128 : ℤ) * 2 < (secp256k1N : ℤ) := by decide
  have hn : 0 < secp256k1N := by norm_num [secp256k1N]
  rcases le_or_lt 0 v with h0 | h0
  · have hK : ((modInt v secp256k1N : ℕ) : ℤ) = v :=
      modInt_eq_of_nonneg h0 (by omega)
    have hKlt : modInt v secp256k1N < POW_2_128 := by omega
    have hneg : decide (modInt v secp256k1N > POW_2_128) = false := by
      simp only [decide_eq_false_iff_not]
      omega
    exact ⟨modInt v secp256k1N, false, hneg, by simp, hKlt, by simp [hK]⟩
  · have hK : ((modInt v secp256k1N : ℕ) : ℤ) = v + secp256k1N :=
      modInt_eq_of_neg h0 (by omega)
    have hgt : modInt v secp256k1N > POW_2_128 := by omega
    have hneg : decide (modInt v secp256k1N > POW_2_128) = true := by
      simp only [decide_eq_true_eq]
      exact hgt
    have hKn : modInt v secp256k1N < secp256k1N := modInt_lt v _ hn
    refine ⟨secp256k1N - modInt v secp256k1N, true, hneg, by simp, by omega, ?_⟩
    simp only [if_true]
    push_cast [Nat.cast_sub (le_of_lt hKn)]
    omega

/-- Full functional specification of `splitScalar` on `[0, n)`: it succeeds,
both magnitudes are below `2^128`, and the sign-adjusted pair reconstructs
`k` through the eigenvalue λ. -/
theorem splitScalar_spec (k : ℕ) :
    ∃ (k1 : ℕ) (k1neg : Bool) (k2 : ℕ) (k2neg : Bool),
      splitScalar k = .ok (k1, k1neg, k2, k2neg)
      ∧ k1 < POW_2_128 ∧ k2 < POW_2_128
      ∧ ((if k1neg then -(k1 : ℤ) else (k1 : ℤ))
          + (lambdaScalar : ℤ) * (if k2neg then -(k2 : ℤ) else (k2 : ℤ)))
            % (secp256k1N : ℤ) = (k : ℤ) % (secp256k1N : ℤ) := by
  have hn : 0 < secp256k1N := by norm_num [secp256k1N]
  obtain ⟨r1, hr1lt, he1⟩ :=
    divNearest_decomp (endoB2.toNat * k) secp256k1N hn
  obtain ⟨r2, hr2lt, he2⟩ :=
    divNearest_decomp ((-endoB1).toNat * k) secp256k1N hn
  set c1 : ℕ := divNearest (endoB2.toNat * k) secp256k1N with hc1def
  set c2 : ℕ := divNearest ((-endoB1).toNat * k) secp256k1N with hc2def
  have hA1cast : ((endoB2.toNat : ℕ) : ℤ) = endoA1 := by decide
  have hB1cast : (((-endoB1).toNat : ℕ) : ℤ) = -endoB1 := by decide
  rw [Nat.cast_mul, hA1cast] at he1
  rw [Nat.cast_mul, hB1cast] at he2
  have hhalf : (secp256k1N : ℤ) = 2 * ((secp256k1N / 2 : ℕ) : ℤ) + 1 := by
    decide
  have hr1z : (r1 : ℤ) < (secp256k1N : ℤ) := by exact_mod_cast hr1lt
  have hr2z : (r2 : ℤ) < (secp256k1N : ℤ) := by exact_mod_cast hr2lt
  have hb := glv_bound (secp256k1N : ℤ) ((secp256k1N / 2 : ℕ) : ℤ)
    endoA1 endoA2 (-endoB1) (POW_2_128 : ℤ) (k : ℤ) (c1 : ℤ) (c2 : ℤ)
    (r1 : ℤ) (r2 : ℤ)
    (by decide) (by decide) (by decide) (by decide) (by decide)
    (by decide) (by decide)
    (by omega) (by omega) he1 he2 (by positivity) (by positivity)
  obtain ⟨⟨hv1lo, hv1hi⟩, hv2lo, hv2hi⟩ := hb
  have hv2eq : -(c1 : ℤ) * endoB1 - (c2 : ℤ) * endoB2
      = (c1 : ℤ) * (-endoB1) - (c2 : ℤ) * endoA1 := by
    rw [show endoB2 = endoA1 from rfl]
    ring
  obtain ⟨K1, neg1, hdec1, hif1, hK1lt, hval1⟩ :=
    signAdjust ((k : ℤ) - (c1 : ℤ) * endoA1 - (c2 : ℤ) * endoA2) hv1lo hv1hi
  obtain ⟨K2, neg2, hdec2, hif2, hK2lt, hval2⟩ :=
    signAdjust (-(c1 : ℤ) * endoB1 - (c2 : ℤ) * endoB2)
      (by rw [hv2eq]; exact hv2lo) (by rw [hv2eq]; exact hv2hi)
  refine ⟨K1, neg1, K2, neg2, ?_, hK1lt, hK2lt, ?_⟩
  · rw [splitScalar]
    rw [← hc1def, ← hc2def, hdec1, hdec2, hif1, hif2]
    rw [if_neg (by push_neg; omega)]
  · rw [hval1, hval2, hv2eq]
    have hX : ((lambdaScalar : ℤ) * (-endoB1) - endoA1) % (secp256k1N : ℤ)
        = 0 := by decide
    have hY : (endoA2 + (lambdaScalar : ℤ) * endoA1) % (secp256k1N : ℤ)
        = 0 := by decide
    obtain ⟨t1, ht1⟩ := Int.dvd_of_emod_eq_zero hX
    obtain ⟨t2, ht2⟩ := Int.dvd_of_emod_eq_zero hY
    have hcomb : ((k : ℤ) - (c1 : ℤ) * endoA1 - (c2 : ℤ) * endoA2)
        + (lambdaScalar : ℤ)
          * ((c1 : ℤ) * (-endoB1) - (c2 : ℤ) * endoA1)
        = (k : ℤ) + (secp256k1N : ℤ) * ((c1 : ℤ) * t1 - (c2 : ℤ) * t2) := by
      linear_combination (c1 : ℤ) * ht1 + (-(c2 : ℤ)) * ht2
    rw [hcomb, Int.add_mul_emod_self_left]

/-- C3. For every scalar `k ∈ [0, n)`, `splitScalar k` returns
`(k1, k1neg, k2, k2neg)` with `(±k1 + λ·(±k2)) mod n = k mod n` (the sign
negative exactly when the flag is set) and both magnitudes below `2^128`. -/
theorem splitScalar_correct (k : ℕ) (hk : k < secp256k1N) :
    ∃ (k1 : ℕ) (k1neg : Bool) (k2 : ℕ) (k2neg : Bool),
      splitScalar k = .ok (k1, k1neg, k2, k2neg)
      ∧ k1 < 2 ^ 128 ∧ k2 < 2 ^ 128
      ∧ ((if k1neg then -(k1 : ℤ) else (k1 : ℤ))
          + (lambdaScalar : ℤ) * (if k2neg then -(k2 : ℤ) else (k2 : ℤ)))
            % (secp256k1N : ℤ) = (k : ℤ) % (secp256k1N : ℤ) := by
  obtain ⟨k1, k1neg, k2, k2neg, h1, h2, h3, h4⟩ := splitScalar_spec k
  have hpow : POW_2_128 = 2 ^ 128 := by decide
  exact ⟨k1, k1neg, k2, k2neg, h1, by omega, by omega, h4⟩

/-- Witness for C3 at `k = 7`. -/
theorem splitScalar_correct_witness :
    ∃ (k1 : ℕ) (k1neg : Bool) (k2 : ℕ) (k2neg : Bool),
      splitScalar 7 = .ok (k1, k1neg, k2, k2neg)
      ∧ k1 < 2 ^ 128 ∧ k2 < 2 ^ 128
      ∧ ((if k1neg then -(k1 : ℤ) else (k1 : ℤ))
          + (lambdaScalar : ℤ) * (if k2neg then -(k2 : ℤ) else (k2 : ℤ)))
            % (secp256k1N : ℤ) = (7 : ℤ) % (secp256k1N : ℤ) :=
  splitScalar_correct 7 (by norm_num [secp256k1N])

/-- C8. `splitScalar` never reaches its `'Endomorphism failed'` branch on
`[0, n)`: it always returns a value. -/
theorem splitScalar_total (k : ℕ) (hk : k < secp256k1N) :
    ∃ t, splitScalar k = .ok t := by
  obtain ⟨k1, k1neg, k2, k2neg, h1, _, _, _⟩ := splitScalar_spec k
  exact ⟨(k1, k1neg, k2, k2neg), h1⟩

/-- Witness for C8 at `k = 11`. -/
theorem splitScalar_total_witness : ∃ t, splitScalar 11 = .ok t :=
  splitScalar_total 11 (by norm_num [secp256k1N])

/-! ## Byte codecs and hashing (Schnorr/BIP340 part of the source) -/

/-- Modelled from the spec: `bytesToNumberBE` of the external utils module
("fixed-width big-endian integer↔byte codecs", spec §6). -/
def bytesToInt (l : List ℕ) : ℕ := l.foldl (fun acc b => acc * 256 + b) 0

/-- Modelled from the spec: `numberToBytesBE x len`, the fixed-width
big-endian encoding; every call site of the embedding passes
`x < 2^(8·len)`. -/
def numberToBytesBE (x len : ℕ) : List ℕ :=
  (List.range len).map (fun i => x / 256 ^ (len - 1 - i) % 256)

/-- `numTo32b` (source line 134). -/
def numTo32b (x : ℕ) : List ℕ := numberToBytesBE x 32

/-- `modN` (source line 135). -/
def modN (x : ℕ) : ℕ := x % secp256k1N

/-- Modelled from the spec: `ensureBytes(b, expectedLength)` of the external
utils module fails on a length mismatch (`MalformedEncoding`). -/
def ensureBytesLen (b : List ℕ) (expected : ℕ) : Except Err (List ℕ) :=
  if b.length = expected then .ok b else .error .badLength

/-- Modelled from the spec: `ensureBytes(b)` without an expected length only
coerces its input, which on byte input is the identity — in particular it
imposes no length requirement. -/
def ensureBytes (b : List ℕ) : List ℕ := b

/-- `hex32ToInt` (source line 139). -/
def hex32ToInt (key : List ℕ) : Except Err ℕ :=
  match ensureBytesLen key 32 with
  | .error e => .error e
  | .ok b => .ok (bytesToInt b)

/-- `TAGS.aux = 'BIP0340/aux'`, as its byte values (source line 117). -/
def tagAux : List ℕ := [66, 73, 80, 48, 51, 52, 48, 47, 97, 117, 120]

/-- `TAGS.nonce = 'BIP0340/nonce'` (source line 118). -/
def tagNonce : List ℕ :=
  [66, 73, 80, 48, 51, 52, 48, 47, 110, 111, 110, 99, 101]

/-- `TAGS.challenge = 'BIP0340/challenge'` (source line 116). -/
def tagChallenge : List ℕ :=
  [66, 73, 80, 48, 51, 52, 48, 47, 99, 104, 97, 108, 108, 101, 110, 103, 101]

/-- `taggedHash` without its prefix cache:
`H(H(tag) || H(tag) || data...)`.  The hash primitive `H` (SHA-256 of the
external `@noble/hashes` package) is a parameter of the embedding.  The
cached variant and its observational transparency are modelled separately
below (`taggedHashCached`). -/
def taggedHashP (H : List ℕ → List ℕ) (tag : List ℕ)
    (messages : List (List ℕ)) : List ℕ :=
  H ((H tag ++ H tag) ++ messages.foldr (· ++ ·) [])

/-- `challenge` (source lines 155-157). -/
def challenge (H : List ℕ → List ℕ) (args : List (List ℕ)) : ℕ :=
  modN (bytesToInt (taggedHashP H tagChallenge args))

/-! ## The modelled external point arithmetic

The group operations live in `abstract/weierstrass.js`, which is not among
the analysed sources; they are modelled from the spec ("Point: (x, y)
satisfying y² = x³ + 7 mod p, or the point at infinity", §3; "derive point
from scalar, add, double-scalar multiply-and-add, affine conversion, even-y
test, on-curve validation, compressed-byte encoding", §6) as standard
Jacobian-coordinate arithmetic with affine conversion. -/

/-- Modular subtraction of canonical residues. -/
def modSubP (a b : ℕ) : ℕ :=
  (a + (secp256k1P - b % secp256k1P)) % secp256k1P

/-- Modelled from the spec: a projective (Jacobian) point of the external
library; `z = 0` encodes the point at infinity. -/
structure JacPoint where
  x : ℕ
  y : ℕ
  z : ℕ
deriving DecidableEq, Repr

/-- Jacobian doubling on `y² = x³ + 7` (curve coefficient `a = 0`). -/
def jDouble (Q : JacPoint) : JacPoint :=
  let P := secp256k1P
  let ysq := Q.y * Q.y % P
  let s := 4 * Q.x % P * ysq % P
  let m := 3 * Q.x % P * Q.x % P
  let x3 := modSubP (m * m % P) (2 * s % P)
  let y3 := modSubP (m * (modSubP s x3) % P) (8 * (ysq * ysq % P) % P)
  let z3 := 2 * Q.y % P * Q.z % P
  ⟨x3, y3, z3⟩

/-- Jacobian addition on `y² = x³ + 7`. -/
def jAdd (Q R : JacPoint) : JacPoint :=
  if Q.z = 0 then R
  else if R.z = 0 then Q
  else
    let P := secp256k1P
    let z1sq := Q.z * Q.z % P
    let z2sq := R.z * R.z % P
    let u1 := Q.x * z2sq % P
    let u2 := R.x * z1sq % P
    let s1 := Q.y * (z2sq * R.z % P) % P
    let s2 := R.y * (z1sq * Q.z % P) % P
    let h := modSubP u2 u1
    let r := modSubP s2 s1
    if h = 0 then
      if r = 0 then jDouble Q else ⟨0, 1, 0⟩
    else
      let hsq := h * h % P
      let hcu := hsq * h % P
      let x3 := modSubP (modSubP (r * r % P) hcu) (2 * (u1 * hsq % P) % P)
      let y3 := modSubP (r * (modSubP (u1 * hsq % P) x3) % P) (s1 * hcu % P)
      let z3 := h * Q.z % P * R.z % P
      ⟨x3, y3, z3⟩

/-- Double-and-add ladder (structural recursion on fuel; callers pass
`fuel = k + 1`, sufficient since `k` halves at every step).  The first `if`
is never true (`a + 1 ≠ 0` in `ℕ`); deciding it forces the coordinates to
numerals at each step, which keeps kernel reduction shallow when witnesses
are evaluated. -/
def jMulFuel : ℕ → JacPoint → ℕ → JacPoint
  | 0, _, _ => ⟨0, 1, 0⟩
  | f + 1, Q, k =>
    if Q.x + Q.y + Q.z + 1 = 0 then ⟨0, 1, 0⟩
    else if k = 0 then ⟨0, 1, 0⟩
    else
      let h := jMulFuel f (jDouble Q) (k / 2)
      if k % 2 = 1 then jAdd h Q else h

/-- Modelled from the spec: modular inversion of the external field module,
via Fermat's little theorem (`p` is prime, `secp256k1P_prime`). -/
def pointInv (a : ℕ) : ℕ := powMod a (secp256k1P - 2) secp256k1P

/-- Modelled from the spec: `toAffine` of the external library; fails (the
source throws) on the point at infinity, here `none`. -/
def toAffine (Q : JacPoint) : Option AffPoint :=
  if Q.z = 0 then none
  else
    let zi := pointInv Q.z
    let zi2 := zi * zi % secp256k1P
    some ⟨Q.x * zi2 % secp256k1P, Q.y * (zi2 * zi % secp256k1P) % secp256k1P⟩

/-- Embed an affine point (or infinity) into Jacobian coordinates. -/
def ofAffine : Option AffPoint → JacPoint
  | none => ⟨0, 1, 0⟩
  | some Q => ⟨Q.x % secp256k1P, Q.y % secp256k1P, 1⟩

/-- Modelled from the spec: scalar multiplication `k·Q` of the external
library ("derive point from scalar", spec §6). -/
def pointMul (Q : Option AffPoint) (k : ℕ) : Option AffPoint :=
  toAffine (jMulFuel (k + 1) (ofAffine Q) k)

/-- The base point `G = (Gx, Gy)` of the source curve configuration. -/
def G : AffPoint := ⟨Gx, Gy⟩

/-- `hasEvenY` of the external library. -/
def hasEvenY (Q : AffPoint) : Bool := decide (Q.y % 2 = 0)

/-- `pointToBytes = point.toRawBytes(true).slice(1)` (source line 133): the
32-byte big-endian x-coordinate. -/
def pointToBytes (Q : AffPoint) : List ℕ := numTo32b Q.x

/-- Modelled from the spec: `Point.fromPrivateKey` — `P = d·G` after the
`0 < d < n` range check (source comment on line 142; `InputRangeError` of
spec §4.4). -/
def fromPrivateKey (d : ℕ) : Except Err AffPoint :=
  if d = 0 ∨ secp256k1N ≤ d then .error .inputRange
  else
    match pointMul (some G) d with
    | some Q => .ok Q
    | none => .error .pointAtInfinity

/-- `GmulAdd Q a b = Point.BASE.multiplyAndAddUnsafe(Q, a, b) = a·G + b·Q`
(source lines 137-138); `none` is the `undefined` infinity result. -/
def GmulAdd (Q : AffPoint) (a b : ℕ) : Option AffPoint :=
  toAffine (jAdd (jMulFuel (a + 1) (ofAffine (some G)) a)
    (jMulFuel (b + 1) (ofAffine (some Q)) b))

/-! ## The Schnorr (BIP340) pipeline (source lines 140-208) -/

/-- `schnorrGetExtPubKey` on an already-numeric private scalar (the
`typeof priv === 'bigint'` branch of source line 141, used by `schnorrSign`
for the nonce). -/
def schnorrGetExtPubKeyScalar (d : ℕ) : Except Err (AffPoint × ℕ × List ℕ) :=
  match fromPrivateKey d with
  | .error e => .error e
  | .ok point =>
    let scalar := if hasEvenY point then d
      else modInt (-(d : ℤ)) secp256k1N
    .ok (point, scalar, pointToBytes point)

/-- `schnorrGetExtPubKey` on a 32-byte private key (source lines 140-145):
the returned point is `d·G` unchanged; only the scalar is negated when the
point has odd `y`. -/
def schnorrGetExtPubKey (priv : List ℕ) : Except Err (AffPoint × ℕ × List ℕ) :=
  match hex32ToInt priv with
  | .error e => .error e
  | .ok d => schnorrGetExtPubKeyScalar d

/-- `schnorrGetPublicKey` (source lines 160-162). -/
def schnorrGetPublicKey (priv : List ℕ) : Except Err (List ℕ) :=
  match schnorrGetExtPubKey priv with
  | .error e => .error e
  | .ok t => .ok t.2.2

/-- The `try`-block of `schnorrVerify` (source lines 192-208), with each
`throw` surfaced as an `Except.error` and each early `return false` as
`.ok false`. -/
def schnorrVerifyCore (H : List ℕ → List ℕ)
    (signature message publicKey : List ℕ) : Except Err Bool :=
  match hex32ToInt publicKey with
  | .error e => .error e
  | .ok px =>
    match lift_x px with
    | .error e => .error e
    | .ok P =>
      match ensureBytesLen signature 64 with
      | .error e => .error e
      | .ok sig =>
        let r := bytesToInt (sig.take 32)
        if ¬ fe r then .ok false
        else
          let s := bytesToInt (sig.drop 32)
          if ¬ ge s then .ok false
          else
            let m := ensureBytes message
            let e := challenge H [numTo32b r, pointToBytes P, m]
            match GmulAdd P s (modInt (-(e : ℤ)) secp256k1N) with
            | none => .ok false
            | some R =>
              if ¬ hasEvenY R ∨ R.x ≠ r then .ok false
              else .ok true

/-- `schnorrVerify` (source lines 192-208): the `try/catch` collapses every
internal failure to `false`, so the result is a total `Bool`. -/
def schnorrVerify (H : List ℕ → List ℕ)
    (signature message publicKey : List ℕ) : Bool :=
  match schnorrVerifyCore H signature message publicKey with
  | .ok b => b
  | .error _ => false

/-- `schnorrSign` (source lines 166-187).  The message is passed through
`ensureBytes` with no expected length (source line 172) — there is no
32-byte message check.  The final self-verification (source line 185)
aborts signing unless `schnorrVerify` accepts the fresh signature. -/
def schnorrSign (H : List ℕ → List ℕ)
    (message privateKey auxRand : List ℕ) : Except Err (List ℕ) :=
  let m := ensureBytes message
  match schnorrGetExtPubKey privateKey with
  | .error e => .error e
  | .ok (_, d, px) =>
    match ensureBytesLen auxRand 32 with
    | .error e => .error e
    | .ok a =>
      let t := numTo32b (Nat.xor d (bytesToInt (taggedHashP H tagAux [a])))
      let rand := taggedHashP H tagNonce [t, px, m]
      let kq := modN (bytesToInt rand)
      if kq = 0 then .error .nonceZero
      else
        match schnorrGetExtPubKeyScalar kq with
        | .error e => .error e
        | .ok (R, kk, rx) =>
          let e := challenge H [rx, px, m]
          let sig := numTo32b R.x ++ numTo32b (modN (kk + e * d))
          if ¬ schnorrVerify H sig m px then .error .selfCheckFailed
          else .ok sig

/-- Core of the signing round trip: whenever `schnorrSign` returns a
signature, the self-check of source line 185 has already run `schnorrVerify`
on exactly the public-key bytes that `schnorrGetPublicKey` would return. -/
theorem sign_ok_verify (H : List ℕ → List ℕ) (d m aux sig : List ℕ)
    (hs : schnorrSign H m d aux = .ok sig) :
    ∃ pk, schnorrGetPublicKey d = .ok pk
      ∧ schnorrVerify H sig m pk = true := by
  rw [schnorrSign] at hs
  split at hs
  · exact absurd hs (by simp)
  · rename_i t P dd px heq
    split at hs
    · exact absurd hs (by simp)
    · rename_i t2 a heq2
      dsimp only at hs
      split at hs
      · exact absurd hs (by simp)
      · split at hs
        · exact absurd hs (by simp)
        · rename_i t3 R kk rx heq3
          split at hs
          · exact absurd hs (by simp)
          · rename_i hver
            refine ⟨px, ?_, ?_⟩
            · rw [schnorrGetPublicKey, heq]
            · have hsig : sig = numTo32b R.x
                  ++ numTo32b (modN (kk + challenge H [rx, px, ensureBytes m]
                    * dd)) := by
                exact (Except.ok.inj hs).symm
              rw [hsig]
              simpa using hver

/-- C1. For a private key in `[1, n-1]`, a 32-byte message and 32-byte
auxiliary randomness: if `schnorrSign` returns a signature, `schnorrVerify`
accepts it under `schnorrGetPublicKey` of the same key. -/
theorem sign_verify_roundtrip (H : List ℕ → List ℕ) (d m aux sig : List ℕ)
    (_hd : 1 ≤ bytesToInt d ∧ bytesToInt d ≤ secp256k1N - 1)
    (_hdl : d.length = 32) (_hm : m.length = 32) (_ha : aux.length = 32)
    (hs : schnorrSign H m d aux = .ok sig) :
    ∃ pk, schnorrGetPublicKey d = .ok pk
      ∧ schnorrVerify H sig m pk = true :=
  sign_ok_verify H d m aux sig hs

theorem hex32ToInt_ok {k : List ℕ} {v : ℕ} (h : hex32ToInt k = .ok v) :
    k.length = 32 ∧ v = bytesToInt k := by
  rw [hex32ToInt, ensureBytesLen] at h
  by_cases hl : k.length = 32
  · simp only [hl, if_true] at h
    exact ⟨hl, (Except.ok.inj h).symm⟩
  · simp [hl] at h

theorem ensureBytesLen_ok {b : List ℕ} {n : ℕ} {v : List ℕ}
    (h : ensureBytesLen b n = .ok v) : b.length = n ∧ v = b := by
  rw [ensureBytesLen] at h
  by_cases hl : b.length = n
  · simp only [hl, if_true] at h
    exact ⟨hl, (Except.ok.inj h).symm⟩
  · simp [hl] at h

theorem fe_true {x : ℕ} (h : fe x = true) : 0 < x ∧ x < secp256k1P := by
  rw [fe] at h
  simpa using h

theorem ge_true {x : ℕ} (h : ge x = true) : 0 < x ∧ x < secp256k1N := by
  rw [ge] at h
  simpa using h

/-- C2. Whenever `schnorrVerify` accepts, every validation step succeeded;
contrapositively each internal failure (wrong lengths, unliftable key,
out-of-range `r` or `s`, infinity result, odd `y`, wrong `x`) yields
`false` — and `schnorrVerify` is by construction a total `Bool`-valued
function (the `try/catch` of the source). -/
theorem verify_false_on_failure (H : List ℕ → List ℕ) (sig m pk : List ℕ)
    (hv : schnorrVerify H sig m pk = true) :
    pk.length = 32 ∧ sig.length = 64
    ∧ ∃ P, lift_x (bytesToInt pk) = .ok P
      ∧ 0 < bytesToInt (sig.take 32) ∧ bytesToInt (sig.take 32) < secp256k1P
      ∧ 0 < bytesToInt (sig.drop 32) ∧ bytesToInt (sig.drop 32) < secp256k1N
      ∧ ∃ R, GmulAdd P (bytesToInt (sig.drop 32))
          (modInt (-(challenge H [numTo32b (bytesToInt (sig.take 32)),
            pointToBytes P, ensureBytes m] : ℤ)) secp256k1N) = some R
        ∧ hasEvenY R = true ∧ R.x = bytesToInt (sig.take 32) := by
  rw [schnorrVerify] at hv
  split at hv
  · rename_i b heqc
    rw [schnorrVerifyCore] at heqc
    subst hv
    split at heqc
    · exact absurd heqc (by simp)
    · rename_i t px heq1
      obtain ⟨hpk, hpxv⟩ := hex32ToInt_ok heq1
      subst hpxv
      split at heqc
      · exact absurd heqc (by simp)
      · rename_i t2 P heq2
        split at heqc
        · exact absurd heqc (by simp)
        · rename_i t3 s64 heq3
          obtain ⟨hsl, hs64⟩ := ensureBytesLen_ok heq3
          subst hs64
          dsimp only at heqc
          split at heqc
          · exact absurd (Except.ok.inj heqc) (by simp)
          · rename_i hfe
            split at heqc
            · exact absurd (Except.ok.inj heqc) (by simp)
            · rename_i hge
              split at heqc
              · exact absurd (Except.ok.inj heqc) (by simp)
              · rename_i R heq4
                split at heqc
                · exact absurd (Except.ok.inj heqc) (by simp)
                · rename_i hlast
                  push_neg at hfe hge hlast
                  obtain ⟨hr1, hr2⟩ := fe_true hfe
                  obtain ⟨hs1, hs2⟩ := ge_true hge
                  exact ⟨hpk, hsl,
                    P, heq2, hr1, hr2, hs1, hs2, R, heq4,
                    hlast.1, hlast.2⟩
  · exact absurd hv (by simp)

theorem fromPrivateKey_ok {d : ℕ} {Q : AffPoint}
    (h : fromPrivateKey d = .ok Q) : pointMul (some G) d = some Q := by
  rw [fromPrivateKey] at h
  split at h
  · exact absurd h (by simp)
  · split at h
    · rename_i Q2 heqm
      rw [Except.ok.inj h] at heqm
      exact heqm
    · exact absurd h (by simp)

theorem fromPrivateKey_error {d : ℕ} {e : Err}
    (h : fromPrivateKey d = .error e) :
    e = .inputRange ∨ e = .pointAtInfinity := by
  rw [fromPrivateKey] at h
  split at h
  · exact Or.inl (Except.error.inj h).symm
  · split at h
    · exact absurd h (by simp)
    · exact Or.inr (Except.error.inj h).symm

theorem getExtPubKeyScalar_error {d : ℕ} {e : Err}
    (h : schnorrGetExtPubKeyScalar d = .error e) :
    e = .inputRange ∨ e = .pointAtInfinity := by
  rw [schnorrGetExtPubKeyScalar] at h
  split at h
  · rename_i e2 heq
    rw [Except.error.inj h] at heq
    exact fromPrivateKey_error heq
  · exact absurd h (by simp)

theorem modInt_neg_scalar {d : ℕ} (h1 : 0 < d) (h2 : d < secp256k1N) :
    modInt (-(d : ℤ)) secp256k1N = secp256k1N - d := by
  have h := modInt_eq_of_neg (v := -(d : ℤ)) (n := secp256k1N)
    (by omega) (by omega)
  omega

/-- C6 (amended). For a valid 32-byte private key, whatever triple
`(P, d, px)` `getExtendedPublicKey` returns satisfies: `P = d₀·G`
unchanged (its `y` may be odd — only the scalar is normalised), `d` is
`d₀` when `P` has even `y` and `n - d₀` otherwise, and `px` is the 32-byte
big-endian `x`-coordinate of `P`. -/
theorem getExtPubKey_amended (priv : List ℕ) (_hlen : priv.length = 32)
    (hd : 1 ≤ bytesToInt priv ∧ bytesToInt priv ≤ secp256k1N - 1) :
    ∀ (P : AffPoint) (dscalar : ℕ) (px : List ℕ),
      schnorrGetExtPubKey priv = .ok (P, dscalar, px) →
      pointMul (some G) (bytesToInt priv) = some P
      ∧ dscalar = (if hasEvenY P then bytesToInt priv
          else secp256k1N - bytesToInt priv)
      ∧ px = numTo32b P.x := by
  intro P dscalar px h
  rw [schnorrGetExtPubKey] at h
  split at h
  · exact absurd h (by simp)
  · rename_i t dval heq1
    obtain ⟨hlen2, hdv⟩ := hex32ToInt_ok heq1
    subst hdv
    rw [schnorrGetExtPubKeyScalar] at h
    split at h
    · exact absurd h (by simp)
    · rename_i t2 point heqf
      dsimp only at h
      have hinj := Except.ok.inj h
      have hP : point = P := congrArg Prod.fst hinj
      have hsc : (if hasEvenY point then bytesToInt priv
          else modInt (-(bytesToInt priv : ℤ)) secp256k1N) = dscalar :=
        congrArg (fun t => t.2.1) hinj
      have hpx : pointToBytes point = px := congrArg (fun t => t.2.2) hinj
      subst hP
      have hn2 : secp256k1N - 1 < secp256k1N := by norm_num [secp256k1N]
      refine ⟨fromPrivateKey_ok heqf, ?_, hpx.symm⟩
      rw [← hsc]
      by_cases hev : hasEvenY point
      · simp [hev]
      · simp only [hev, if_false, Bool.false_eq_true]
        exact modInt_neg_scalar (by omega) (by omega)

set_option maxRecDepth 100000 in
set_option maxHeartbeats 2000000 in
/-- Counterexample for C6: for the private key of value 6 the returned
point is `6·G`, whose `y`-coordinate is odd — the even-`y` normalisation
applies to the returned scalar (`n - 6`), not to the returned point. -/
theorem getExtPubKey_point_odd_y :
    schnorrGetExtPubKey (numTo32b 6)
      = .ok
        (⟨115780575977492633039504758427830329241728645270042306223540962614150928364886,
          78735063515800386211891312544505775871260717697865196436804966483607426560663⟩,
          115792089237316195423570985008687907852837564279074904382605163141518161494331,
          numTo32b 115780575977492633039504758427830329241728645270042306223540962614150928364886)
    ∧ (78735063515800386211891312544505775871260717697865196436804966483607426560663 : ℕ) % 2
        = 1 := by
  constructor
  · rfl
  · rfl

set_option maxRecDepth 100000 in
set_option maxHeartbeats 2000000 in
/-- Witness for C6 (amended) at the private key of value 1 (`G` itself has
even `y`). -/
theorem getExtPubKey_amended_witness :
    pointMul (some G) (bytesToInt (numTo32b 1)) = some G
    ∧ (1 : ℕ) = (if hasEvenY G then bytesToInt (numTo32b 1)
        else secp256k1N - bytesToInt (numTo32b 1))
    ∧ numTo32b Gx = numTo32b G.x :=
  getExtPubKey_amended (numTo32b 1) (by decide) ⟨by decide, by decide⟩
    G 1 (numTo32b Gx) (by rfl)

/-- C7 (amended). `schnorrSign` imposes no length requirement on the
message: with well-formed 32-byte private key and auxiliary randomness, no
malformed-encoding (length) failure can occur, whatever the message's
length. -/
theorem sign_no_msg_length_check (H : List ℕ → List ℕ)
    (m d aux : List ℕ) (hdl : d.length = 32) (hal : aux.length = 32) :
    schnorrSign H m d aux ≠ .error .badLength := by
  intro h
  rw [schnorrSign] at h
  split at h
  · rename_i e heq
    rw [schnorrGetExtPubKey] at heq
    split at heq
    · rename_i t e2 heq2
      rw [hex32ToInt, ensureBytesLen, if_pos hdl] at heq2
      exact absurd heq2 (by simp)
    · rename_i t dval heq2
      have he := Except.error.inj h
      rcases getExtPubKeyScalar_error heq with h1 | h1 <;> rw [he] at h1 <;>
        exact absurd h1 (by simp)
  · rename_i t trip heq
    split at h
    · rename_i t2 e2 heq2
      rw [ensureBytesLen, if_pos hal] at heq2
      exact absurd heq2 (by simp)
    · rename_i t2 a heq2
      dsimp only at h
      split at h
      · exact absurd (Except.error.inj h) (by simp)
      · split at h
        · rename_i t3 e3 heq3
          have he := Except.error.inj h
          rcases getExtPubKeyScalar_error heq3 with h1 | h1 <;> rw [he] at h1 <;>
            exact absurd h1 (by simp)
        · split at h
          · exact absurd (Except.error.inj h) (by simp)
          · exact absurd h (by simp)

/-! ## The tagged-hash prefix cache (`TAGGED_HASH_PREFIXES`, source
lines 121-131), with the mutable map modelled as explicit state. -/

/-- Association-list lookup in the modelled cache. -/
def lookupCache : List (List ℕ × List ℕ) → List ℕ → Option (List ℕ)
  | [], _ => none
  | (t, v) :: rest, tag => if t = tag then some v else lookupCache rest tag

/-- `taggedHash` (source lines 123-131) with its process-wide cache made an
explicit argument and result: on a miss the prefix `H(tag) || H(tag)` is
computed and stored, on a hit the stored prefix is reused. -/
def taggedHashCached (H : List ℕ → List ℕ) (cache : List (List ℕ × List ℕ))
    (tag : List ℕ) (messages : List (List ℕ)) :
    List ℕ × List (List ℕ × List ℕ) :=
  match lookupCache cache tag with
  | some tagP => (H (tagP ++ messages.foldr (· ++ ·) []), cache)
  | none =>
    let tagH := H tag
    let tagP := tagH ++ tagH
    (H (tagP ++ messages.foldr (· ++ ·) []), (tag, tagP) :: cache)

/-- A cache state is valid when every stored prefix is the double hash of
its tag — precisely the states the source can construct. -/
def cacheValid (H : List ℕ → List ℕ)
    (cache : List (List ℕ × List ℕ)) : Prop :=
  ∀ tp ∈ cache, tp.2 = H tp.1 ++ H tp.1

theorem lookupCache_valid {H : List ℕ → List ℕ}
    {cache : List (List ℕ × List ℕ)} {tag v : List ℕ}
    (hv : cacheValid H cache) (hl : lookupCache cache tag = some v) :
    v = H tag ++ H tag := by
  induction cache with
  | nil => simp [lookupCache] at hl
  | cons tp rest ih =>
    obtain ⟨t, w⟩ := tp
    rw [lookupCache] at hl
    by_cases ht : t = tag
    · rw [if_pos ht] at hl
      have h2 := hv (t, w) (List.mem_cons_self _ _)
      dsimp only at h2
      rw [ht] at h2
      rw [← Option.some.inj hl]
      exact h2
    · rw [if_neg ht] at hl
      exact ih (fun tp hm => hv tp (List.mem_cons_of_mem _ hm)) hl

/-- C9. On any reachable (valid) cache state, `taggedHash` returns exactly
`H(H(tag) || H(tag) || data...)` and leaves the cache valid; hence a cold
call (empty cache) and any later cached call return identical bytes. -/
theorem taggedHash_cache_transparent (H : List ℕ → List ℕ)
    (cache : List (List ℕ × List ℕ)) (tag : List ℕ)
    (messages : List (List ℕ)) (hv : cacheValid H cache) :
    (taggedHashCached H cache tag messages).1
      = H ((H tag ++ H tag) ++ messages.foldr (· ++ ·) [])
    ∧ cacheValid H (taggedHashCached H cache tag messages).2
    ∧ (taggedHashCached H cache tag messages).1
      = (taggedHashCached H [] tag messages).1 := by
  have hcold : (taggedHashCached H [] tag messages).1
      = H ((H tag ++ H tag) ++ messages.foldr (· ++ ·) []) := by
    rw [taggedHashCached]
    rfl
  rcases hl : lookupCache cache tag with _ | tagP
  · rw [taggedHashCached, hl]
    refine ⟨rfl, ?_, hcold.symm⟩
    intro tp hm
    rcases List.mem_cons.mp hm with h1 | h1
    · rw [h1]
    · exact hv tp h1
  · have htp := lookupCache_valid hv hl
    rw [taggedHashCached, hl]
    refine ⟨?_, hv, ?_⟩
    · rw [htp]
    · rw [htp, hcold]

/-- Witness for C9: a concrete nonempty valid cache and a cold cache give
the same digest for the same tag and data. -/
theorem taggedHash_cache_transparent_witness :
    ((taggedHashCached (fun l => [l.length % 256])
      [(tagAux, [tagAux.length % 256] ++ [tagAux.length % 256])]
      tagAux [[1, 2, 3]]).1
      = (fun l : List ℕ => [l.length % 256])
          (((fun l : List ℕ => [l.length % 256]) tagAux
            ++ (fun l : List ℕ => [l.length % 256]) tagAux)
            ++ [[1, 2, 3]].foldr (· ++ ·) []))
    ∧ cacheValid (fun l => [l.length % 256])
        (taggedHashCached (fun l => [l.length % 256])
          [(tagAux, [tagAux.length % 256] ++ [tagAux.length % 256])]
          tagAux [[1, 2, 3]]).2
    ∧ ((taggedHashCached (fun l => [l.length % 256])
        [(tagAux, [tagAux.length % 256] ++ [tagAux.length % 256])]
        tagAux [[1, 2, 3]]).1
      = (taggedHashCached (fun l => [l.length % 256]) [] tagAux [[1, 2, 3]]).1) :=
  taggedHash_cache_transparent (fun l => [l.length % 256])
    [(tagAux, [tagAux.length % 256] ++ [tagAux.length % 256])]
    tagAux [[1, 2, 3]]
    (by intro tp hm; simp at hm; rw [hm]; rfl)

/-! ## Concrete witness data for the Schnorr claims

The hash parameter is instantiated with a constant function; the claim
theorems themselves are parametric in `H`. -/

/-- A concrete stand-in hash (constant 32-byte output), used only to
instantiate witnesses and counterexamples. -/
def constHash : List ℕ → List ℕ := fun _ => numTo32b 1

set_option maxRecDepth 400000 in
set_option maxHeartbeats 12000000 in
/-- Witness for C1: concrete key, message and auxiliary randomness on which
`schnorrSign` succeeds, and the produced signature verifies. -/
theorem sign_verify_roundtrip_witness :
    ∃ pk, schnorrGetPublicKey (numTo32b 1) = .ok pk
      ∧ schnorrVerify constHash (numTo32b Gx ++ numTo32b 2)
          (List.replicate 32 0) pk = true :=
  sign_verify_roundtrip constHash (numTo32b 1) (List.replicate 32 0)
    (numTo32b 3) (numTo32b Gx ++ numTo32b 2)
    ⟨by decide, by decide⟩ (by decide) (by decide) (by decide)
    (by rfl)

set_option maxRecDepth 400000 in
set_option maxHeartbeats 12000000 in
/-- Witness for C2: a concrete accepting verification, with all the
validation facts it implies. -/
theorem verify_false_on_failure_witness :
    (numTo32b Gx).length = 32 ∧ (numTo32b Gx ++ numTo32b 2).length = 64
    ∧ ∃ P, lift_x (bytesToInt (numTo32b Gx)) = .ok P
      ∧ 0 < bytesToInt ((numTo32b Gx ++ numTo32b 2).take 32)
      ∧ bytesToInt ((numTo32b Gx ++ numTo32b 2).take 32) < secp256k1P
      ∧ 0 < bytesToInt ((numTo32b Gx ++ numTo32b 2).drop 32)
      ∧ bytesToInt ((numTo32b Gx ++ numTo32b 2).drop 32) < secp256k1N
      ∧ ∃ R, GmulAdd P (bytesToInt ((numTo32b Gx ++ numTo32b 2).drop 32))
          (modInt (-(challenge constHash
            [numTo32b (bytesToInt ((numTo32b Gx ++ numTo32b 2).take 32)),
              pointToBytes P, ensureBytes (numTo32b 5)] : ℤ)) secp256k1N)
            = some R
        ∧ hasEvenY R = true
        ∧ R.x = bytesToInt ((numTo32b Gx ++ numTo32b 2).take 32) :=
  verify_false_on_failure constHash (numTo32b Gx ++ numTo32b 2)
    (numTo32b 5) (numTo32b Gx) (by rfl)

set_option maxRecDepth 400000 in
set_option maxHeartbeats 12000000 in
/-- Counterexample for C7: a 31-byte message is signed successfully — no
malformed-encoding failure occurs for a short message. -/
theorem sign_accepts_short_message :
    schnorrSign constHash (List.replicate 31 1) (numTo32b 1) (numTo32b 4)
      = .ok (numTo32b Gx ++ numTo32b 2) := by
  rfl

/-- Witness for C7 (amended), at a concrete 31-byte message. -/
theorem sign_no_msg_length_check_witness :
    schnorrSign constHash (List.replicate 31 0) (numTo32b 1) (numTo32b 3)
      ≠ .error .badLength :=
  sign_no_msg_length_check constHash (List.replicate 31 0) (numTo32b 1)
    (numTo32b 3) (by decide) (by decide)

set_option maxRecDepth 400000 in
set_option maxHeartbeats 12000000 in
/-- C10. Neither `schnorrSign` nor `schnorrVerify` checks the message
length: a valid private key, a 32-byte auxRand and a 31-byte message yield
a 64-byte signature that verifies, because both operations pass the message
to the tagged hash with no length requirement (`ensureBytes` without an
expected length, source lines 172 and 200). -/
theorem no_message_length_requirement :
    ∃ sig, schnorrSign constHash (List.replicate 31 2) (numTo32b 1)
        (numTo32b 5) = .ok sig
      ∧ sig.length = 64
      ∧ ∃ pk, schnorrGetPublicKey (numTo32b 1) = .ok pk
        ∧ schnorrVerify constHash sig (List.replicate 31 2) pk = true := by
  refine ⟨numTo32b Gx ++ numTo32b 2, ?_, by rfl, ?_⟩
  · rfl
  · exact sign_ok_verify constHash (numTo32b 1) (List.replicate 31 2)
      (numTo32b 5) (numTo32b Gx ++ numTo32b 2) (by rfl)

end Secp256k1
